import Mathlib

/-!
Verification of the release-resolution and artifact-verification client of the
`bodsch.scm` Ansible collection, shallowly embedded in Lean.

The embedded code comes from:
* `plugins/module_utils/release_finder.py` (`ReleaseFinder`),
* `plugins/module_utils/github.py` (`GitHub`),
* `plugins/module_utils/github_cache.py` (`GitHubCache`),
together with the fragments of the external libraries those modules call into
(`urllib3.util.retry.Retry`, `dateutil.parser`, `packaging.version`) that the
code paths under verification exercise.

Python strings are modelled as `String` / `List Char`, dictionaries with a fixed
key set as structures with `Option` fields (a `none` field plays the role of a
missing key), mutation as explicit state passing, and raised/caught exceptions
as `Except` values.
-/

/-! ### String helpers (Python `in`, `str.find`, `str.split`, slicing, `lower`) -/

/-- Python `needle in hay` / `hay.find(needle)` helper: index of the first
occurrence of `needle` as a contiguous substring of `hay`, if any. -/
def firstOccur (needle : List Char) : List Char → Option Nat
  | [] => if needle.isEmpty then some 0 else none
  | c :: cs =>
    if needle.isPrefixOf (c :: cs) then some 0
    else (firstOccur needle cs).map (· + 1)

/-- Python `needle in hay` for strings (contiguous substring test). -/
def strContains (hay needle : List Char) : Bool :=
  (firstOccur needle hay).isSome

/-- Python `str.lower()` (ASCII fragment, which is all the inputs here use). -/
def lowerChars (s : List Char) : List Char :=
  s.map Char.toLower

/-- Python `hay.find(needle)`: first index or `-1`. -/
def pyFind (hay needle : List Char) : Int :=
  match firstOccur needle hay with
  | some i => (i : Int)
  | none => -1

/-- Normalise one python slice index against a length (negative counts from the
end, out-of-range clamps). -/
def pySliceIdx (len : Nat) (i : Int) : Nat :=
  if i < 0 then (max 0 ((len : Int) + i)).toNat else min i.toNat len

/-- Python `l[a:b]` on a string, with python's negative-index and clamping
rules. -/
def pySlice (l : List Char) (a b : Int) : List Char :=
  (l.take (pySliceIdx l.length b)).drop (pySliceIdx l.length a)

/-- Python `s.split(sep)` for a one-character separator: keeps empty fields,
`"" -> [""]`; same field semantics as `String.splitOn`. -/
def splitOnChar (sep : Char) : List Char → List (List Char)
  | [] => [[]]
  | c :: cs =>
    if c = sep then
      [] :: splitOnChar sep cs
    else
      match splitOnChar sep cs with
      | [] => [[c]]
      | f :: fs => (c :: f) :: fs

/-- Python `s.split(" ")` on a `String` (single-space separator, empty fields
kept). -/
def split_space (s : String) : List String :=
  (splitOnChar ' ' s.toList).map List.asString

/-- Existence semantics of `re.search(".*A.*B.*C.*", hay)` for literal parts
`[A, B, C]`: the parts occur, disjointly, in the given order.  The leftmost
placement used here is complete: if any in-order placement exists, placing each
part at its first occurrence leaves the longest possible suffix for the rest. -/
def inOrderMatch : List Char → List (List Char) → Bool
  | _, [] => true
  | hay, n :: ns =>
    match firstOccur n hay with
    | none => false
    | some i => inOrderMatch (hay.drop (i + n.length)) ns

/-! ### Data model: releases -/

/-- One release dictionary as `ReleaseFinder` consumes it
(`{"name": ..., "tag_name": ..., "published_at": ...}`); a `none` field models
a missing key (the further key `url` is never read by the code under
verification and is omitted). -/
structure Release where
  name : Option String
  tag_name : Option String
  published_at : Option String
  deriving Repr, DecidableEq

/-! ### Date and version parsing

`ReleaseFinder` delegates to two external libraries: `dateutil.parser.parse`
for `published_at` and `packaging.version.parse` for `tag_name`.  Both are
modelled on the fragment of their input language that this repository's data
model produces (ISO-8601 Zulu timestamps, dotted-numeric versions with an
optional leading `v` and an optional `+local` suffix); anything outside the
fragment is treated as a parse failure, exactly as the callers treat the
libraries' exceptions. -/

/-- Numeric value of a decimal digit character. -/
def digitVal (c : Char) : Nat :=
  c.toNat - 48

/-- Encode a timestamp as a single natural number; every field below the year
is two decimal digits, so the encoding is strictly monotone in the
lexicographic field order `(y, mo, d, h, mi, s)` used by datetime comparison. -/
def encodeDate (y mo d h mi s : Nat) : Nat :=
  ((((y * 100 + mo) * 100 + d) * 100 + h) * 100 + mi) * 100 + s

/-- Model of `dateutil.parser.parse` on the ISO-8601 Zulu timestamps
(`YYYY-MM-DDThh:mm:ssZ`) that `published_at` carries; anything else is a parse
failure (`ValueError`/`TypeError` in the source, caught by `_parse_date_iso`). -/
def parseIsoTimestamp (s : String) : Option Nat :=
  match s.toList with
  | [y1, y2, y3, y4, '-', m1, m2, '-', d1, d2, 'T',
     h1, h2, ':', n1, n2, ':', s1, s2, 'Z'] =>
    if [y1, y2, y3, y4, m1, m2, d1, d2, h1, h2, n1, n2, s1, s2].all Char.isDigit then
      some (encodeDate
        (((digitVal y1 * 10 + digitVal y2) * 10 + digitVal y3) * 10 + digitVal y4)
        (digitVal m1 * 10 + digitVal m2)
        (digitVal d1 * 10 + digitVal d2)
        (digitVal h1 * 10 + digitVal h2)
        (digitVal n1 * 10 + digitVal n2)
        (digitVal s1 * 10 + digitVal s2))
    else none
  | _ => none

/-- `ReleaseFinder._parse_date_iso`: `None`/empty `published_at` is no date,
otherwise the field is handed to the date parser. -/
def parse_date_iso (r : Release) : Option Nat :=
  match r.published_at with
  | none => none
  | some raw => if raw = "" then none else parseIsoTimestamp raw

/-- Match `\d{4}-\d{2}-\d{2}` at the head of the character list, encoding the
date at midnight as `datetime.fromisoformat` would order it. -/
def parseDateHead : List Char → Option Nat
  | y1 :: y2 :: y3 :: y4 :: '-' :: m1 :: m2 :: '-' :: d1 :: d2 :: _ =>
    if [y1, y2, y3, y4, m1, m2, d1, d2].all Char.isDigit then
      some (encodeDate
        (((digitVal y1 * 10 + digitVal y2) * 10 + digitVal y3) * 10 + digitVal y4)
        (digitVal m1 * 10 + digitVal m2)
        (digitVal d1 * 10 + digitVal d2) 0 0 0)
    else none
  | _ => none

/-- Model of `re.search(r"/\s*(\d{4}-\d{2}-\d{2})", name)` followed by
`datetime.fromisoformat`: scan for a `/`, skip whitespace, and read a
`YYYY-MM-DD` date (leftmost match, as `re.search` finds it). -/
def dateAfterSlash : List Char → Option Nat
  | [] => none
  | '/' :: rest =>
    match parseDateHead (rest.dropWhile Char.isWhitespace) with
    | some d => some d
    | none => dateAfterSlash rest
  | _ :: rest => dateAfterSlash rest

/-- `ReleaseFinder._parse_date_from_name`: fallback date extracted from the
`name` field (`'Release v2.0.0 / 2025-05-27'`). -/
def parse_date_from_name (r : Release) : Option Nat :=
  dateAfterSlash (r.name.getD "").toList

/-- Date of a release as `_get_candidate` computes it:
`self._parse_date_iso(release) or self._parse_date_from_name(release)`. -/
def releaseDate (r : Release) : Option Nat :=
  match parse_date_iso r with
  | some d => some d
  | none => parse_date_from_name r

/-- Parse a nonempty all-digit character group. -/
def parseNatDigits (s : List Char) : Option Nat :=
  if s.isEmpty then none
  else if s.all Char.isDigit then some (s.foldl (fun acc c => acc * 10 + digitVal c) 0)
  else none

/-- Split at the first occurrence of `c`, if any. -/
def splitFirst (c : Char) : List Char → List Char × Option (List Char)
  | [] => ([], none)
  | x :: xs =>
    if x = c then ([], some xs)
    else
      match splitFirst c xs with
      | (l, r) => (x :: l, r)

/-- Characters `packaging` accepts inside a local version segment. -/
def localOk (s : List Char) : Bool :=
  !s.isEmpty && s.all (fun c => c.isAlphanum || c = '.' || c = '-' || c = '_')

/-- Strip trailing zero components, as `packaging.version` does when building
its comparison key (`1.0` and `1.0.0` compare equal). -/
def stripTrailingZeros (l : List Nat) : List Nat :=
  (l.reverse.dropWhile (· = 0)).reverse

/-- Model of `packaging.version.parse` on the fragment its callers exercise:
an optional leading `v`/`V`, dotted numeric release segments, and an optional
`+local` suffix.  The result is the release-segment comparison key (trailing
zeros stripped); epoch/pre/post/dev/local parts play no role in any comparison
the claims reach and are not represented.  `none` models `InvalidVersion`. -/
def parseVersionRelease (tag : String) : Option (List Nat) :=
  let cs := tag.toList
  let cs := match cs with
    | 'v' :: rest => rest
    | 'V' :: rest => rest
    | l => l
  match splitFirst '+' cs with
  | (rel, none) => ((splitOnChar '.' rel).mapM parseNatDigits).map stripTrailingZeros
  | (rel, some loc) =>
    if localOk loc then ((splitOnChar '.' rel).mapM parseNatDigits).map stripTrailingZeros
    else none

/-- `ReleaseFinder._parse_semver`: parse `tag_name` (missing key defaults to
`""`), falling back to `Version("0.0.0")` (comparison key `[]`) on
`InvalidVersion`. -/
def parse_semver (r : Release) : List Nat :=
  (parseVersionRelease (r.tag_name.getD "")).getD []

/-! ### Exclusion, security and candidate computation -/

/-- `ReleaseFinder.set_exclude_keywords` + `_is_excluded`: with keywords
`[k1, k2, ...]` the single pattern `.*(k1|k2|...).*` (keywords `re.escape`d,
`re.IGNORECASE`) is searched in `name` and `tag_name`; i.e. the release is
excluded iff some keyword occurs case-insensitively in either field.  An empty
keyword list installs no pattern, excluding nothing. -/
def isExcluded (kws : List String) (r : Release) : Bool :=
  kws.any fun kw =>
    strContains (lowerChars (r.name.getD "").toList) (lowerChars kw.toList) ||
    strContains (lowerChars (r.tag_name.getD "").toList) (lowerChars kw.toList)

/-- `ReleaseFinder._is_security_release`: `"+security" in tag or
"+security" in name` (missing keys default to `""`). -/
def is_security_release (r : Release) : Bool :=
  strContains (r.tag_name.getD "").toList "+security".toList ||
  strContains (r.name.getD "").toList "+security".toList

/-- `ReleaseFinder._get_candidate`, key part: the `(date, semver)` pair for a
release, or `None` when no date was found. -/
def candidateKey (r : Release) : Option (Nat × List Nat) :=
  match releaseDate r with
  | none => none
  | some d => some (d, parse_semver r)

/-- One element of the candidate sequence built inside `find_latest`: the sort
key produced by `_get_candidate` plus the release it came from.  The python
tuple holds the release dict object itself; `idx` records its position in the
input list so that the in-place mutation at the end of `find_latest` can be
expressed on the list. -/
structure Cand where
  date : Nat
  sem : List Nat
  idx : Nat
  rel : Release
  deriving Repr, DecidableEq

/-- The candidate list of `find_latest` before the mode-specific filter:
releases surviving the exclusion filter, mapped through `_get_candidate`,
`None`s dropped (`filter(None, candidates)`), in list order. -/
def candidates (kws : List String) (releases : List Release) : List Cand :=
  (releases.enum.filter fun p => !isExcluded kws p.2).filterMap fun p =>
    (candidateKey p.2).map fun k => ⟨k.1, k.2, p.1, p.2⟩

/-- Python `max(xs, key=key)`: `None` (a caught `ValueError`) on the empty
list, otherwise the first element attaining the maximal key (`max` replaces
its current best only on a strictly greater key). -/
def pyMax {α κ : Type} (key : α → κ) [LinearOrder κ] : List α → Option α
  | [] => none
  | x :: xs => some (xs.foldl (fun acc y => if key acc < key y then y else acc) x)

/-- The in-place patch at the end of `find_latest`: when the winning release
has a missing or empty `name`, its `name` is overwritten with its
`tag_name`. -/
def patchName (r : Release) : Release :=
  { r with name := r.tag_name }

/-- Whether `find_latest` patches the winner (`if not _name or len(_name) == 0`). -/
def nameBlank (r : Release) : Bool :=
  match r.name with
  | none => true
  | some s => s = ""

/-- The candidate list after the mode-specific step of `find_latest`: in mode
`"security"` the candidates are additionally filtered by
`_is_security_release`. -/
def modeCandidates (mode : String) (kws : List String) (releases : List Release) : List Cand :=
  let cands := candidates kws releases
  if mode = "security" then cands.filter (fun c => is_security_release c.rel) else cands

/-- The `max(...)` call of `find_latest`: key `x[1]` (the semver) in modes
`"version"` and `"security"` (`mode in ("version", "security")`), key
`(x[0], x[1])` (the `(date, semver)` tuple, compared lexicographically as
python compares tuples) in every other mode. -/
def bestCandidate (mode : String) (kws : List String) (releases : List Release) : Option Cand :=
  if mode = "version" || mode = "security" then
    pyMax (fun c : Cand => c.sem) (modeCandidates mode kws releases)
  else
    pyMax (fun c : Cand => toLex (c.date, c.sem)) (modeCandidates mode kws releases)

/-- `ReleaseFinder.find_latest`.  Returns the python return value together
with the post-state of the `releases` list (the python code mutates the
winning dict in place, which is an element of the input list). -/
def find_latest (mode : String) (kws : List String) (releases : List Release) :
    Option Release × List Release :=
  match bestCandidate mode kws releases with
  | none => (none, releases)
  | some c =>
    if nameBlank c.rel then
      (some (patchName c.rel), releases.set c.idx (patchName c.rel))
    else
      (some c.rel, releases)

/-! ### Transport: retry layer

`GitHub._get_request` builds a `requests.Session` with
`Retry(total=3, backoff_factor=1, status_forcelist=[429, 500, 502, 503, 504],
allowed_methods=["GET"])` mounted on an `HTTPAdapter`.  The retry loop runs
inside urllib3, so its semantics are taken from
`urllib3.util.retry.Retry.increment` / `is_exhausted` / `get_backoff_time`:
each retryable response decrements `total` and retrying is abandoned only once
the counter is *below zero*, so `total = n` allows the initial request plus
`n` retries (`n + 1` physical requests). -/

/-- The `status_forcelist` of the retry strategy in `_get_request`. -/
def statusForcelist : List Nat := [429, 500, 502, 503, 504]

/-- One `session.get` through the mounted retry adapter.  `total` is the
remaining retry budget, `responses` the statuses the server would answer to
successive physical requests.  Returns the status handed back to
`_get_request` (or `none` for a raised `RetryError` once retries are
exhausted) together with the number of physical requests issued. -/
def sessionGetWithRetry (total : Nat) (responses : List Nat) : Option Nat × Nat :=
  match responses with
  | [] => (none, 0)
  | s :: rest =>
    if s ∈ statusForcelist then
      match total with
      | 0 => (none, 1)
      | t + 1 =>
        match sessionGetWithRetry t rest with
        | (r, n) => (r, n + 1)
    else (some s, 1)

/-- `urllib3.util.retry.Retry.get_backoff_time` with an integral backoff
factor: the sleep before a retry when `k` consecutive errors have been seen is
`0` for `k ≤ 1` and `factor * 2^(k-1)` otherwise (so the first retry happens
immediately and retry `k ≥ 2` waits `factor * 2^(k-1)` seconds). -/
def get_backoff_time (factor k : Nat) : Nat :=
  if k ≤ 1 then 0 else factor * 2 ^ (k - 1)

/-! ### Transport: pagination layer

The `while url:` loop of `_get_request` with `expect_json=True`,
`paginate=True` and every page answering 200. -/

/-- A page as the loop sees it: the decoded JSON body (either a JSON list or a
single non-list value) and the `Link` response header. -/
structure PageResp (α : Type) where
  body : List α ⊕ α
  linkHeader : String
  deriving Repr

/-- The list coercion in `_get_request`:
`if not isinstance(json_data, list): json_data = [json_data]`. -/
def coerceBody {α : Type} : List α ⊕ α → List α
  | .inl l => l
  | .inr x => [x]

/-- The `Link`-header scan of `_get_request`: split on `","`, take the first
part containing `rel="next"`, and slice out `link[link.find("<") + 1 :
link.find(">")]`. -/
def extractNextUrl (linkHeader : String) : Option String :=
  let rec go : List String → Option String
    | [] => none
    | part :: rest =>
      if strContains part.toList "rel=\"next\"".toList then
        some (pySlice part.toList (pyFind part.toList "<".toList + 1)
          (pyFind part.toList ">".toList)).asString
      else go rest
  go ((splitOnChar ',' linkHeader.toList).map List.asString)

/-- One request issued by the pagination loop: the URL fetched and the
`params` passed to `session.get` (opaque here). -/
structure Req where
  url : String
  params : Option String
  deriving Repr, DecidableEq

/-- The pagination loop of `_get_request` (JSON path, all pages 200): fetch
`url`, coerce the body to a list, extend `result`, and follow the
`rel="next"` cursor with `params = None` until the header has none.  `fuel`
bounds the walk (the python loop would not terminate on a cyclic cursor
chain); `log` records every request issued. -/
def get_request_paginate {α : Type} (server : String → PageResp α) :
    Nat → String → Option String → List α → List Req → Option (List α × List Req)
  | 0, _, _, _, _ => none
  | fuel + 1, url, params, result, log =>
    let resp := server url
    let result := result ++ coerceBody resp.body
    let log := log ++ [⟨url, params⟩]
    match extractNextUrl resp.linkHeader with
    | some nextUrl => get_request_paginate server fuel nextUrl none result log
    | none => some (result, log)

/-- The three-page mock server of the pagination scenario: pages of two items
chained by `Link: <url>; rel="next"` headers. -/
def server3 : String → PageResp Nat := fun u =>
  if u = "https://api.github.com/p1" then
    ⟨.inl [1, 2], "<https://api.github.com/p2>; rel=\"next\""⟩
  else if u = "https://api.github.com/p2" then
    ⟨.inl [3, 4], "<https://api.github.com/p3>; rel=\"next\""⟩
  else if u = "https://api.github.com/p3" then
    ⟨.inl [5, 6], ""⟩
  else
    ⟨.inl [], ""⟩

/-! ### File-backed TTL cache (`GitHubCache`) -/

/-- The state of one cache file: whether it is on disk, its age in minutes
(meaningful only when on disk), whether opening/reading it succeeds, and its
content (as decoded text). -/
structure CacheFile where
  onDisk : Bool
  ageMinutes : Nat
  readable : Bool
  content : String
  deriving Repr, DecidableEq

/-- Exceptions the `cached_data` body can raise internally. -/
inductive PyExn
  | osError
  | jsonDecodeError
  deriving Repr, DecidableEq

instance {ε α : Type} [DecidableEq ε] [DecidableEq α] : DecidableEq (Except ε α) := fun a b =>
  match a, b with
  | .ok x, .ok y =>
    if h : x = y then .isTrue (by rw [h]) else .isFalse (fun hc => by cases hc; exact h rfl)
  | .error x, .error y =>
    if h : x = y then .isTrue (by rw [h]) else .isFalse (fun hc => by cases hc; exact h rfl)
  | .ok _, .error _ => .isFalse (fun hc => by cases hc)
  | .error _, .ok _ => .isFalse (fun hc => by cases hc)

/-- Modelled from the spec: `cache_valid` lives in the external `bodsch.core`
collection (`ansible_collections.bodsch.core...cache.cache_valid`), whose
source is not part of this repository.  Per the spec's validity test the cache
is usable iff the file exists and `(now - file_mtime) ≤ ttl_minutes`, with the
boundary `age == ttl_minutes` still valid; `cache_valid` itself returns the
negation (`False` when the file exists and is young enough), which
`cached_data` re-negates. -/
def cache_valid (f : CacheFile) (ttl : Nat) : Bool :=
  !(f.onDisk && decide (f.ageMinutes ≤ ttl))

/-- Python `open(...).read()`: the file's text, or an `OSError`. -/
def readFileE (f : CacheFile) : Except PyExn String :=
  if f.readable then .ok f.content else .error .osError

/-- `json.load` on the file's text: the parsed value, or a
`json.JSONDecodeError`.  The JSON grammar itself is irrelevant to the claims,
so the parser is a parameter. -/
def jsonLoadE {J : Type} (parse : String → Option J) (s : String) : Except PyExn J :=
  match parse s with
  | some v => .ok v
  | none => .error .jsonDecodeError

/-- `cache_path.unlink()` inside its own `try/except OSError: pass`. -/
def unlinkQuiet (f : CacheFile) : CacheFile :=
  { f with onDisk := false }

/-- `GitHubCache.cached_data`: validity test, guarded read + JSON parse, and
on either a `JSONDecodeError` or an `OSError` delete the file and fall through
to `return None`.  The `Except` result is what the *caller* can observe: an
`.error` would be an exception escaping `cached_data`. -/
def cached_data {J : Type} (parse : String → Option J) (ttl : Nat) (f : CacheFile) :
    Except PyExn (Option J × CacheFile) :=
  let is_still_valid := !(cache_valid f ttl)
  if is_still_valid && f.onDisk then
    match (readFileE f).bind (jsonLoadE parse) with
    | .ok v => .ok (some v, f)
    | .error .jsonDecodeError => .ok (none, unlinkQuiet f)
    | .error .osError => .ok (none, unlinkQuiet f)
  else
    .ok (none, f)

/-- A concrete JSON parser stub for witnesses: accepts exactly `"[]"`. -/
def parseEmptyList : String → Option Nat := fun s =>
  if s = "[]" then some 0 else none

/-! ### Checksum asset lookup (`GitHub.get_checksum_asset`) -/

/-- One entry of the `_release_assets` result:
`{"name": ..., "url": ..., "size": ...}`. -/
structure Asset where
  name : String
  url : Option String
  size : Option Nat
  deriving Repr, DecidableEq

/-- The keyword list of `get_checksum_asset`. -/
def checksumKeywords : List String := ["sha256", "sha512", "checksum", "sum"]

/-- Python `tag.lstrip("v")`: strip every leading `v`. -/
def lstripV (s : String) : String :=
  (s.toList.dropWhile (· = 'v')).asString

/-- The `name_lower = asset["name"].lower()` of the loop body of
`get_checksum_asset`. -/
def lowerName (a : Asset) : String :=
  (lowerChars a.name.toList).asString

/-- The first check of the loop body of `get_checksum_asset`:
`any(kw in name_lower for kw in keywords)` (`name_lower` already lowered). -/
def kwMatch (nameLower : String) : Bool :=
  checksumKeywords.any fun kw => strContains nameLower.toList kw.toList

/-- The second check of the loop body of `get_checksum_asset`:
`normalized_tag in name_lower and self.system in name_lower and
self.architecture in name_lower and any(kw in name_lower ...)`. -/
def strictMatch (normalizedTag system arch nameLower : String) : Bool :=
  strContains nameLower.toList normalizedTag.toList &&
  strContains nameLower.toList system.toList &&
  strContains nameLower.toList arch.toList &&
  kwMatch nameLower

/-- `GitHub.get_checksum_asset`: on a non-200 status from `_release_assets`
return `None`; otherwise scan the assets in listing order and return the first
one passing either check. -/
def get_checksum_asset (system arch tag : String) (resp : Nat × List Asset) : Option Asset :=
  if resp.1 ≠ 200 then none
  else
    let normalizedTag := (lowerChars (lstripV tag).toList).asString
    resp.2.findSome? fun asset =>
      if kwMatch (lowerName asset) then some asset
      else if strictMatch normalizedTag system arch (lowerName asset) then some asset
      else none

/-! ### Checksum resolution (`GitHub.checksum`) -/

/-- The union-typed python local `checksum` inside `GitHub.checksum`: a string,
a list (the filtered lines), or `None`. -/
inductive PyVal
  | pstr (s : String)
  | plist (l : List String)
  | pnone
  deriving Repr, DecidableEq

/-- The filter `re.search(fr".*{repo}.*{self.system}.*{self.architecture}.*", x)`
(for metacharacter-free `repo`/`system`/`architecture`, which interpolate into
the pattern verbatim): the three strings occur in `x`, disjointly, in that
order. -/
def lineMatches (repo system arch : String) (x : String) : Bool :=
  inOrderMatch x.toList [repo.toList, system.toList, arch.toList]

/-- `GitHub.checksum`, given the cached line list (`None` models a cache
miss).  Returns the pair `(cached_data, checksum)` the python function
returns. -/
def checksum (repo system arch : String) (cachedLines : Option (List String)) :
    List String × PyVal :=
  match cachedLines with
  | none => ([], .pnone)
  | some [] => ([], .pnone)
  | some lines =>
    let filtered := lines.filter (lineMatches repo system arch)
    let chk : PyVal :=
      match filtered with
      | [only] => .pstr only
      | _ =>
        match lines with
        | [single] =>
          match split_space single with
          | [bare] => .pstr bare
          | _ => .plist filtered
        | _ => .plist filtered
    match chk with
    | .pstr s =>
      match split_space s with
      | tok :: _ => (lines, .pstr tok)
      | [] => (lines, .pstr "")
    | v => (lines, v)

/-- Specification-side description of `findChecksumAsset` (for the refinement
claim): the first asset, in listing order, whose name contains one of the
checksum keywords case-insensitively; `none` when no asset does. -/
def firstKeywordAsset (assets : List Asset) : Option Asset :=
  assets.find? fun a => kwMatch (lowerName a)

/-- The token of `s` before the first space: `s.split(" ")[0]`. -/
def firstField (s : String) : String :=
  match split_space s with
  | t :: _ => t
  | [] => ""

/-! ### Helper lemmas -/

theorem toList_asString (l : List Char) : (List.asString l).toList = l := rfl

/-- A `findSome?` whose function only guards the element itself is a `find?`. -/
theorem findSome?_guard_eq_find? {β : Type} (p : β → Bool) (l : List β) :
    l.findSome? (fun x => if p x then some x else none) = l.find? p := by
  induction l with
  | nil => rfl
  | cons a rest ih =>
    rw [List.findSome?_cons, List.find?_cons]
    cases hp : p a
    · simp [hp, ih]
    · simp [hp]

/-- The foldl inside `pyMax` returns the start value or a list element. -/
theorem pyMax_foldl_mem {α κ : Type} (key : α → κ) [LinearOrder κ] :
    ∀ (l : List α) (a : α),
      l.foldl (fun acc y => if key acc < key y then y else acc) a ∈ a :: l := by
  intro l
  induction l with
  | nil => intro a; simp
  | cons b l ih =>
    intro a
    simp only [List.foldl_cons]
    rcases List.mem_cons.mp (ih (if key a < key b then b else a)) with h | h
    · rw [h]
      by_cases hab : key a < key b
      · simp [hab]
      · simp [hab]
    · exact List.mem_cons_of_mem _ (List.mem_cons_of_mem _ h)

/-- The foldl inside `pyMax` dominates the start value and every element. -/
theorem pyMax_foldl_max {α κ : Type} (key : α → κ) [LinearOrder κ] :
    ∀ (l : List α) (a : α), ∀ y ∈ a :: l,
      key y ≤ key (l.foldl (fun acc z => if key acc < key z then z else acc) a) := by
  intro l
  induction l with
  | nil =>
    intro a y hy
    rcases List.mem_cons.mp hy with h | h
    · rw [h, List.foldl_nil]
    · cases h
  | cons b l ih =>
    intro a y hy
    simp only [List.foldl_cons]
    have hstepa : key a ≤ key (if key a < key b then b else a) := by
      by_cases hab : key a < key b
      · simp only [if_pos hab]; exact le_of_lt hab
      · simp only [if_neg hab]; exact le_refl _
    have hstepb : key b ≤ key (if key a < key b then b else a) := by
      by_cases hab : key a < key b
      · simp only [if_pos hab]; exact le_refl _
      · simp only [if_neg hab]; exact le_of_not_lt hab
    have hacc := ih (if key a < key b then b else a) _ (List.mem_cons_self _ _)
    rcases List.mem_cons.mp hy with h | h
    · rw [h]; exact le_trans hstepa hacc
    rcases List.mem_cons.mp h with h | h
    · rw [h]; exact le_trans hstepb hacc
    · exact ih _ y (List.mem_cons_of_mem _ h)

/-- `pyMax` on a nonempty list returns an element whose key dominates the
whole list. -/
theorem pyMax_spec {α κ : Type} (key : α → κ) [LinearOrder κ] (l : List α) (h : l ≠ []) :
    ∃ m, pyMax key l = some m ∧ m ∈ l ∧ ∀ y ∈ l, key y ≤ key m := by
  cases l with
  | nil => exact absurd rfl h
  | cons a l =>
    exact ⟨_, rfl, pyMax_foldl_mem key l a, fun y hy => pyMax_foldl_max key l a y hy⟩

/-- `pyMax` only returns list elements. -/
theorem pyMax_mem {α κ : Type} (key : α → κ) [LinearOrder κ] {l : List α} {m : α}
    (h : pyMax key l = some m) : m ∈ l := by
  cases l with
  | nil => cases h
  | cons a l =>
    have := pyMax_foldl_mem key l a
    rwa [Option.some_inj.mp h] at this

/-- Every candidate records the release at its recorded index. -/
theorem candidates_getElem {kws : List String} {releases : List Release} {c : Cand}
    (hc : c ∈ candidates kws releases) : releases[c.idx]? = some c.rel := by
  unfold candidates at hc
  obtain ⟨p, hp, hpc⟩ := List.mem_filterMap.mp hc
  have hpmem : p ∈ releases.enum := (List.mem_filter.mp hp).1
  cases hk : candidateKey p.2 with
  | none => rw [hk] at hpc; cases hpc
  | some k =>
    rw [hk] at hpc
    cases hpc
    exact List.mem_enum_iff_getElem?.mp hpmem

/-- Candidates of a release list with no parsable dates: none. -/
theorem candidates_nil_of_no_date (kws : List String) (releases : List Release)
    (h : ∀ r ∈ releases, releaseDate r = none) : candidates kws releases = [] := by
  unfold candidates
  rw [List.filterMap_eq_nil_iff]
  intro p hp
  have hpmem : p ∈ releases.enum := (List.mem_filter.mp hp).1
  have hrel : p.2 ∈ releases :=
    List.mem_iff_getElem?.mpr ⟨p.1, List.mem_enum_iff_getElem?.mp hpmem⟩
  simp [candidateKey, h p.2 hrel]

/-- `find_latest` in mode `"published"`, unfolded. -/
theorem find_latest_published_eq (kws : List String) (releases : List Release) :
    find_latest "published" kws releases =
      match pyMax (fun c : Cand => toLex (c.date, c.sem)) (candidates kws releases) with
      | none => (none, releases)
      | some c =>
        if nameBlank c.rel then
          (some (patchName c.rel), releases.set c.idx (patchName c.rel))
        else (some c.rel, releases) := rfl

/-- A candidate chosen by `bestCandidate` comes from the candidate list. -/
theorem bestCandidate_mem {mode : String} {kws : List String} {releases : List Release}
    {c : Cand} (h : bestCandidate mode kws releases = some c) :
    c ∈ candidates kws releases := by
  have hmem : c ∈ modeCandidates mode kws releases := by
    unfold bestCandidate at h
    by_cases hvs : (decide (mode = "version") || decide (mode = "security")) = true
    · rw [if_pos hvs] at h; exact pyMax_mem _ h
    · rw [if_neg hvs] at h; exact pyMax_mem _ h
  unfold modeCandidates at hmem
  by_cases hs : mode = "security"
  · rw [if_pos hs] at hmem; exact List.mem_of_mem_filter hmem
  · rwa [if_neg hs] at hmem

/-- `find_latest` of an empty candidate list answers `None` and leaves the
input untouched, in every mode. -/
theorem find_latest_of_candidates_nil (mode : String) (kws : List String)
    (releases : List Release) (h : candidates kws releases = []) :
    find_latest mode kws releases = (none, releases) := by
  have hmc : modeCandidates mode kws releases = [] := by
    unfold modeCandidates
    rw [h]
    by_cases hs : mode = "security"
    · rw [if_pos hs]; rfl
    · rw [if_neg hs]
  have hbc : bestCandidate mode kws releases = none := by
    unfold bestCandidate
    rw [hmc]
    by_cases hvs : (decide (mode = "version") || decide (mode = "security")) = true
    · rw [if_pos hvs]; rfl
    · rw [if_neg hvs]; rfl
  unfold find_latest
  rw [hbc]

/-- The request log of a successful pagination walk: the first request
carries the caller's `params`, every later one was issued for a cursor URL
with `params = None`. -/
theorem get_request_paginate_log {α : Type} (server : String → PageResp α) :
    ∀ (fuel : Nat) (url : String) (p : Option String) (acc : List α) (log : List Req)
      (items : List α) (reqs : List Req),
      get_request_paginate server fuel url p acc log = some (items, reqs) →
      ∃ newReqs, reqs = log ++ ⟨url, p⟩ :: newReqs ∧ ∀ r ∈ newReqs, r.params = none := by
  intro fuel
  induction fuel with
  | zero => intro url p acc log items reqs h; cases h
  | succ fuel ih =>
    intro url p acc log items reqs h
    simp only [get_request_paginate] at h
    cases hnext : extractNextUrl (server url).linkHeader with
    | none =>
      rw [hnext] at h
      simp only [Option.some.injEq, Prod.mk.injEq] at h
      refine ⟨[], ?_, fun r hr => absurd hr (List.not_mem_nil r)⟩
      rw [← h.2]
    | some nextUrl =>
      rw [hnext] at h
      obtain ⟨nr, hnr, hall⟩ := ih nextUrl none (acc ++ coerceBody (server url).body)
        (log ++ [⟨url, p⟩]) items reqs h
      refine ⟨⟨nextUrl, none⟩ :: nr, ?_, ?_⟩
      · rw [hnr]; simp
      · intro r hr
        rcases List.mem_cons.mp hr with h | h
        · rw [h]
        · exact hall r h

/-! ### Claims -/

/-- C1, counterexample: the retry strategy `Retry(total=3, ...)` of
`_get_request` allows the initial request plus 3 retries, so a server
answering 500 on every attempt sees a 4th physical request and the transport
fails only after it — contradicting the claim that exactly 3 requests are
issued and no 4th ever happens. -/
theorem retry_budget_counterexample :
    sessionGetWithRetry 3 [500, 500, 500, 500] = (none, 4) := by decide

/-- C1, amended: the retry budget of `_get_request` is 4 total attempts (1
initial + 3 retries).  A server answering 500, 500, 200 yields the 200 result
on the third request; a server answering a retryable status on every attempt
fails after exactly 4 requests, with no 5th ever issued; the backoff before
the first retry is 0 and before retry `k ≥ 2` it is `factor * 2^(k-1)`
seconds (factor 1). -/
theorem retry_budget_amended :
    sessionGetWithRetry 3 [500, 500, 200] = (some 200, 3) ∧
    (∀ (s1 s2 s3 s4 : Nat) (rest : List Nat),
      s1 ∈ statusForcelist → s2 ∈ statusForcelist → s3 ∈ statusForcelist →
      s4 ∈ statusForcelist →
      sessionGetWithRetry 3 (s1 :: s2 :: s3 :: s4 :: rest) = (none, 4)) ∧
    get_backoff_time 1 1 = 0 ∧
    (∀ k, 2 ≤ k → get_backoff_time 1 k = 2 ^ (k - 1)) := by
  refine ⟨by decide, ?_, by decide, ?_⟩
  · intro s1 s2 s3 s4 rest h1 h2 h3 h4
    simp [sessionGetWithRetry, h1, h2, h3, h4]
  · intro k hk
    unfold get_backoff_time
    rw [if_neg (by omega), one_mul]

theorem retry_budget_amended_witness :
    sessionGetWithRetry 3 [500, 502, 503, 429] = (none, 4) ∧ get_backoff_time 1 2 = 2 :=
  ⟨retry_budget_amended.2.1 500 502 503 429 [] (by decide) (by decide) (by decide) (by decide),
   (retry_budget_amended.2.2.2 2 (by decide)).trans (by decide)⟩

/-- C2: in mode `"published"`, for every nonempty candidate set `find_latest`
returns the candidate whose `(date, semver)` key is lexicographically maximal
(both components ascending, date decides first, semver only breaks date ties;
the winner's blank name, if any, is patched to its tag name as elsewhere
specified); in particular, of `v12.0.2` published `2025-06-17T21:41:45Z` and
`v11.6.3` published `2025-06-17T21:58:59Z`, the release `v11.6.3` is returned
despite its lower semver. -/
theorem find_latest_published_lex_max :
    (∀ releases : List Release, candidates [] releases ≠ [] →
      ∃ c ∈ candidates [] releases,
        (find_latest "published" [] releases).1 =
          some (if nameBlank c.rel then patchName c.rel else c.rel) ∧
        ∀ c' ∈ candidates [] releases,
          toLex (c'.date, c'.sem) ≤ toLex (c.date, c.sem)) ∧
    (find_latest "published" []
        [⟨some "12.0.2", some "v12.0.2", some "2025-06-17T21:41:45Z"⟩,
         ⟨some "11.6.3", some "v11.6.3", some "2025-06-17T21:58:59Z"⟩]).1 =
      some ⟨some "11.6.3", some "v11.6.3", some "2025-06-17T21:58:59Z"⟩ := by
  refine ⟨?_, by decide⟩
  intro releases hne
  obtain ⟨m, hm, hmem, hmax⟩ :=
    pyMax_spec (fun c : Cand => toLex (c.date, c.sem)) (candidates [] releases) hne
  refine ⟨m, hmem, ?_, hmax⟩
  rw [find_latest_published_eq, hm]
  by_cases hb : nameBlank m.rel
  · simp [hb]
  · simp [hb]

theorem find_latest_published_lex_max_witness :
    ∃ c ∈ candidates []
        [⟨some "12.0.2", some "v12.0.2", some "2025-06-17T21:41:45Z"⟩,
         ⟨some "11.6.3", some "v11.6.3", some "2025-06-17T21:58:59Z"⟩],
      (find_latest "published" []
          [⟨some "12.0.2", some "v12.0.2", some "2025-06-17T21:41:45Z"⟩,
           ⟨some "11.6.3", some "v11.6.3", some "2025-06-17T21:58:59Z"⟩]).1 =
        some (if nameBlank c.rel then patchName c.rel else c.rel) ∧
      ∀ c' ∈ candidates []
          [⟨some "12.0.2", some "v12.0.2", some "2025-06-17T21:41:45Z"⟩,
           ⟨some "11.6.3", some "v11.6.3", some "2025-06-17T21:58:59Z"⟩],
        toLex (c'.date, c'.sem) ≤ toLex (c.date, c.sem) :=
  find_latest_published_lex_max.1 _ (by decide)

/-- C3, counterexample: a release with a null `published_at` and no
`/ YYYY-MM-DD` in its name is dropped from candidacy even in the
date-independent modes: with the single dateless release `v1.0.0`, the
candidate set is empty and `find_latest` returns `None` in both mode
`"version"` and mode `"security"`, so the release can never be returned —
contradicting the claim that it is still a candidate there. -/
theorem dateless_release_counterexample :
    candidates [] [⟨some "1.0.0", some "v1.0.0", none⟩] = [] ∧
    find_latest "version" [] [⟨some "1.0.0", some "v1.0.0", none⟩] =
      (none, [⟨some "1.0.0", some "v1.0.0", none⟩]) ∧
    find_latest "security" [] [⟨some "1.0.0", some "v1.0.0", none⟩] =
      (none, [⟨some "1.0.0", some "v1.0.0", none⟩]) := by decide

/-- C3, amended: releases that yield no usable date are dropped from
candidacy in *every* mode — `_get_candidate` returns `None` without a date
and `find_latest` filters the `None`s out before the mode split, so a release
list in which no release has a parsable date makes `find_latest` return
`None` in all modes, `"version"` and `"security"` included. -/
theorem dateless_release_dropped_all_modes :
    (∀ r : Release, releaseDate r = none → candidateKey r = none) ∧
    (∀ (mode : String) (kws : List String) (releases : List Release),
      (∀ r ∈ releases, releaseDate r = none) →
      find_latest mode kws releases = (none, releases)) := by
  constructor
  · intro r h
    unfold candidateKey
    rw [h]
  · intro mode kws releases h
    exact find_latest_of_candidates_nil mode kws releases
      (candidates_nil_of_no_date kws releases h)

theorem dateless_release_dropped_all_modes_witness :
    candidateKey ⟨some "1.0.0", some "v1.0.0", none⟩ = none ∧
    find_latest "version" [] [⟨some "1.0.0", some "v1.0.0", none⟩] =
      (none, [⟨some "1.0.0", some "v1.0.0", none⟩]) :=
  ⟨dateless_release_dropped_all_modes.1 _ (by decide),
   dateless_release_dropped_all_modes.2 "version" [] _
     (fun r hr => by rw [List.mem_singleton.mp hr]; decide)⟩

/-- C4: the pagination walker made of `get_all_releases` and `_get_request`
follows the `Link rel="next"` cursor until absent, appends items in server
order without re-sorting, coerces a non-list JSON body to a one-element list,
and sends the caller's query params only on the first request (every
subsequent request uses the cursor URL verbatim with `params = None`); with 3
pages of 2 items each chained by `Link` headers it returns all 6 items in
server order and issues exactly 3 requests. -/
theorem pagination_walker :
    (get_request_paginate server3 10 "https://api.github.com/p1" (some "per_page=100") [] [] =
      some ([1, 2, 3, 4, 5, 6],
        [⟨"https://api.github.com/p1", some "per_page=100"⟩,
         ⟨"https://api.github.com/p2", none⟩,
         ⟨"https://api.github.com/p3", none⟩])) ∧
    (∀ (α : Type) (x : α), coerceBody (Sum.inr x) = [x]) ∧
    (∀ (α : Type) (server : String → PageResp α) (fuel : Nat) (url : String)
      (p : Option String) (items : List α) (reqs : List Req),
      get_request_paginate server fuel url p [] [] = some (items, reqs) →
      ∃ rest, reqs = ⟨url, p⟩ :: rest ∧ ∀ r ∈ rest, r.params = none) := by
  refine ⟨by decide, fun α x => rfl, ?_⟩
  intro α server fuel url p items reqs h
  obtain ⟨nr, hnr, hall⟩ := get_request_paginate_log server fuel url p [] [] items reqs h
  exact ⟨nr, by simpa using hnr, hall⟩

theorem pagination_walker_witness :
    ∃ rest,
      [(⟨"https://api.github.com/p1", some "per_page=100"⟩ : Req),
       ⟨"https://api.github.com/p2", none⟩,
       ⟨"https://api.github.com/p3", none⟩] =
        (⟨"https://api.github.com/p1", some "per_page=100"⟩ : Req) :: rest ∧
      ∀ r ∈ rest, r.params = none :=
  pagination_walker.2.2 Nat server3 10 "https://api.github.com/p1" (some "per_page=100")
    [1, 2, 3, 4, 5, 6] _ (by decide)

/-- C5: `cached_data` answers absent (`None`) whenever the file does not
exist or its age exceeds `ttl` minutes, and the boundary `age == ttl` is
still valid: with `ttl = 60` an entry is present at age 59 (and at the
boundary 60) and absent at age 61. -/
theorem cache_ttl_validity :
    (∀ (J : Type) (parse : String → Option J) (ttl : Nat) (f : CacheFile),
      f.onDisk = false ∨ ttl < f.ageMinutes →
      cached_data parse ttl f = .ok (none, f)) ∧
    cached_data parseEmptyList 60 ⟨true, 59, true, "[]"⟩ =
      .ok (some 0, ⟨true, 59, true, "[]"⟩) ∧
    cached_data parseEmptyList 60 ⟨true, 60, true, "[]"⟩ =
      .ok (some 0, ⟨true, 60, true, "[]"⟩) ∧
    cached_data parseEmptyList 60 ⟨true, 61, true, "[]"⟩ =
      .ok (none, ⟨true, 61, true, "[]"⟩) := by
  refine ⟨?_, by decide, by decide, by decide⟩
  intro J parse ttl f h
  unfold cached_data cache_valid
  rcases h with h | h
  · simp [h]
  · have hna : ¬ f.ageMinutes ≤ ttl := not_le.mpr h
    simp [hna]

theorem cache_ttl_validity_witness :
    cached_data parseEmptyList 60 ⟨false, 0, true, "[]"⟩ =
      .ok (none, ⟨false, 0, true, "[]"⟩) ∧
    cached_data parseEmptyList 60 ⟨true, 61, true, "[]"⟩ =
      .ok (none, ⟨true, 61, true, "[]"⟩) :=
  ⟨cache_ttl_validity.1 Nat parseEmptyList 60 _ (Or.inl rfl),
   cache_ttl_validity.1 Nat parseEmptyList 60 _ (Or.inr (by decide))⟩

/-- C6: `get_checksum_asset` over a 200-status asset listing returns exactly
the first asset, in listing order, whose name contains one of
`{"sha256", "sha512", "checksum", "sum"}` case-insensitively (`none` when no
asset does), and its second, stricter matching branch is unreachable: whenever
the first keyword check has failed on an asset name, the stricter conjunction
(normalised tag + system + architecture + keyword) fails on it too. -/
theorem checksum_asset_selection :
    (∀ (system arch tag : String) (assets : List Asset),
      get_checksum_asset system arch tag (200, assets) = firstKeywordAsset assets) ∧
    (∀ normalizedTag system arch nameLower : String,
      kwMatch nameLower = false →
      strictMatch normalizedTag system arch nameLower = false) := by
  have hstrict : ∀ normalizedTag system arch nameLower : String,
      kwMatch nameLower = false →
      strictMatch normalizedTag system arch nameLower = false := by
    intro nt s a nl h
    simp [strictMatch, h]
  refine ⟨?_, hstrict⟩
  intro system arch tag assets
  simp only [get_checksum_asset, firstKeywordAsset]
  rw [if_neg (by simp)]
  have hfun : ∀ x : Asset,
      (if kwMatch (lowerName x) then some x
       else if strictMatch (lowerChars (lstripV tag).toList).asString system arch
          (lowerName x) then some x
       else none) =
      if kwMatch (lowerName x) then some x else none := by
    intro x
    by_cases hk : kwMatch (lowerName x) = true
    · rw [if_pos hk, if_pos hk]
    · have hkf : kwMatch (lowerName x) = false := by
        revert hk; cases kwMatch (lowerName x) <;> simp
      rw [if_neg hk, if_neg hk, hstrict _ _ _ _ hkf]
      simp
  simp only [hfun]
  exact findSome?_guard_eq_find? (fun x : Asset => kwMatch (lowerName x)) assets

theorem checksum_asset_selection_witness :
    get_checksum_asset "linux" "x86_64" "v1.2.3"
        (200, [⟨"myapp-linux.tar.gz", none, none⟩, ⟨"SHA256SUMS", none, none⟩]) =
      firstKeywordAsset [⟨"myapp-linux.tar.gz", none, none⟩, ⟨"SHA256SUMS", none, none⟩] ∧
    strictMatch "1.2.3" "linux" "x86_64" "myapp-linux-x86_64-1.2.3.tar.gz" = false :=
  ⟨checksum_asset_selection.1 "linux" "x86_64" "v1.2.3" _,
   checksum_asset_selection.2 "1.2.3" "linux" "x86_64" "myapp-linux-x86_64-1.2.3.tar.gz"
     (by decide)⟩

/-- C7, counterexample: when no line matches and the cache holds exactly one
line, that line is *not* treated as the sole entry unless it contains no
space: for the single non-matching line `"abcd1234  myapp-darwin.tar.gz"`
(repo `myapp`, system `linux`, arch `x86_64`) the fallback `split(" ")` has
length 3, so the function returns the empty filtered list instead of the
line (or a token of it). -/
theorem checksum_single_line_counterexample :
    checksum "myapp" "linux" "x86_64" (some ["abcd1234  myapp-darwin.tar.gz"]) =
      (["abcd1234  myapp-darwin.tar.gz"], PyVal.plist []) := by decide

/-- C7, amended: checksum resolution filters the cached lines for `repo`,
`system` and `arch` occurring as substrings in that order; when exactly one
line matches, the returned value is that line's `split(" ")[0]` (the token
before the first space) — for the two quoted lines the result is
`"abcd1234"`; when none match and the cache holds exactly one line, that line
is used as the sole entry only if it contains no space at all (the bare line
is then returned verbatim), otherwise the (here empty) filtered list is
returned unchanged. -/
theorem checksum_resolution :
    (∀ (repo system arch : String) (lines : List String) (x : String),
      lines.filter (lineMatches repo system arch) = [x] →
      checksum repo system arch (some lines) = (lines, .pstr (firstField x))) ∧
    (checksum "myapp" "linux" "x86_64"
        (some ["abcd1234  myapp-linux-x86_64.tar.gz", "ef567890  myapp-darwin-x86_64.tar.gz"]) =
      (["abcd1234  myapp-linux-x86_64.tar.gz", "ef567890  myapp-darwin-x86_64.tar.gz"],
        .pstr "abcd1234")) ∧
    (∀ (repo system arch bare : String),
      lineMatches repo system arch bare = false →
      split_space bare = [bare] →
      checksum repo system arch (some [bare]) = ([bare], .pstr bare)) := by
  refine ⟨?_, by decide, ?_⟩
  · intro repo system arch lines x hx
    cases lines with
    | nil => simp at hx
    | cons l ls =>
      simp only [checksum]
      rw [hx]
      cases hsp : split_space x with
      | nil => simp [firstField, hsp]
      | cons t ts => simp [firstField, hsp]
  · intro repo system arch bare h hsp
    have hf : [bare].filter (lineMatches repo system arch) = [] := by simp [h]
    simp only [checksum]
    rw [hf]
    simp [hsp]

theorem checksum_resolution_witness :
    checksum "myapp" "linux" "x86_64"
        (some ["abcd1234  myapp-linux-x86_64.tar.gz", "ef567890  myapp-darwin-x86_64.tar.gz"]) =
      (["abcd1234  myapp-linux-x86_64.tar.gz", "ef567890  myapp-darwin-x86_64.tar.gz"],
        .pstr (firstField "abcd1234  myapp-linux-x86_64.tar.gz")) ∧
    checksum "myapp" "linux" "x86_64" (some ["bare0hash"]) =
      (["bare0hash"], .pstr "bare0hash") :=
  ⟨checksum_resolution.1 "myapp" "linux" "x86_64"
      ["abcd1234  myapp-linux-x86_64.tar.gz", "ef567890  myapp-darwin-x86_64.tar.gz"]
      "abcd1234  myapp-linux-x86_64.tar.gz" (by decide),
   checksum_resolution.2.2 "myapp" "linux" "x86_64" "bare0hash" (by decide) (by decide)⟩

/-- C8: a read through `cached_data` can never surface an exception to the
caller — for every parser, ttl and file state the result is an `.ok` value —
and on a fresh file whose content fails JSON deserialization the file is
deleted and absent (`None`) is returned. -/
theorem cache_corruption_recovery :
    (∀ (J : Type) (parse : String → Option J) (ttl : Nat) (f : CacheFile),
      ∃ r, cached_data parse ttl f = .ok r) ∧
    (∀ (J : Type) (parse : String → Option J) (ttl : Nat) (f : CacheFile),
      f.onDisk = true → f.ageMinutes ≤ ttl → parse f.content = none →
      cached_data parse ttl f = .ok (none, unlinkQuiet f)) := by
  constructor
  · intro J parse ttl f
    by_cases hc : ((!cache_valid f ttl) && f.onDisk) = true
    · cases hread : (readFileE f).bind (jsonLoadE parse) with
      | ok v =>
        refine ⟨(some v, f), ?_⟩
        simp only [cached_data]
        rw [if_pos hc, hread]
      | error e =>
        cases e with
        | osError =>
          refine ⟨(none, unlinkQuiet f), ?_⟩
          simp only [cached_data]
          rw [if_pos hc, hread]
        | jsonDecodeError =>
          refine ⟨(none, unlinkQuiet f), ?_⟩
          simp only [cached_data]
          rw [if_pos hc, hread]
    · refine ⟨(none, f), ?_⟩
      simp only [cached_data]
      rw [if_neg hc]
  · intro J parse ttl f h1 h2 h3
    have hcond : (!cache_valid f ttl && f.onDisk) = true := by
      simp [cache_valid, h1, h2]
    simp only [cached_data]
    rw [if_pos hcond]
    by_cases hr : f.readable = true
    · simp [readFileE, hr, jsonLoadE, h3, Except.bind]
    · simp [readFileE, hr, Except.bind]

theorem cache_corruption_recovery_witness :
    (∃ r, cached_data parseEmptyList 60 ⟨true, 10, true, "garbage"⟩ = .ok r) ∧
    cached_data parseEmptyList 60 ⟨true, 10, true, "garbage"⟩ =
      .ok (none, unlinkQuiet ⟨true, 10, true, "garbage"⟩) :=
  ⟨cache_corruption_recovery.1 Nat parseEmptyList 60 _,
   cache_corruption_recovery.2 Nat parseEmptyList 60 _ rfl (by decide) (by decide)⟩

/-- C9, counterexample: `find_latest` does mutate its input — with the single
release whose `name` is the empty string, the post-state list differs from
the input: the winning dict's `name` has been overwritten in place with its
`tag_name`. -/
theorem find_latest_mutation_counterexample :
    (find_latest "published" [] [⟨some "", some "v1.0.0", some "2025-01-01T00:00:00Z"⟩]).2 ≠
      [⟨some "", some "v1.0.0", some "2025-01-01T00:00:00Z"⟩] ∧
    (find_latest "published" [] [⟨some "", some "v1.0.0", some "2025-01-01T00:00:00Z"⟩]).2 =
      [⟨some "v1.0.0", some "v1.0.0", some "2025-01-01T00:00:00Z"⟩] := by decide

/-- C9, amended: `find_latest` leaves the release list unchanged except for
one sanctioned in-place write: when the selected release's `name` is missing
or empty, that release's `name` field — and nothing else — is overwritten
with its `tag_name`; every other release, and every other field, is
untouched. -/
theorem find_latest_mutation_bound :
    ∀ (mode : String) (kws : List String) (releases : List Release)
      (res : Option Release) (post : List Release),
      find_latest mode kws releases = (res, post) →
      post = releases ∨
      ∃ i orig, releases[i]? = some orig ∧ nameBlank orig = true ∧
        res = some (patchName orig) ∧ post = releases.set i (patchName orig) := by
  intro mode kws releases res post h
  unfold find_latest at h
  cases hb : bestCandidate mode kws releases with
  | none =>
    rw [hb] at h
    have h2 : ((none : Option Release), releases) = (res, post) := h
    injection h2 with h1 h2
    left
    exact h2.symm
  | some c =>
    rw [hb] at h
    have h' : (if nameBlank c.rel then
        (some (patchName c.rel), releases.set c.idx (patchName c.rel))
      else (some c.rel, releases)) = (res, post) := h
    by_cases hn : nameBlank c.rel = true
    · rw [if_pos hn] at h'
      injection h' with h1 h2
      right
      exact ⟨c.idx, c.rel, candidates_getElem (bestCandidate_mem hb), hn, h1.symm, h2.symm⟩
    · rw [if_neg hn] at h'
      injection h' with h1 h2
      left
      exact h2.symm

theorem find_latest_mutation_bound_witness :
    ([⟨some "v1.0.0", some "v1.0.0", some "2025-01-01T00:00:00Z"⟩] : List Release) =
        [⟨some "", some "v1.0.0", some "2025-01-01T00:00:00Z"⟩] ∨
    ∃ i orig,
      ([⟨some "", some "v1.0.0", some "2025-01-01T00:00:00Z"⟩] : List Release)[i]? =
          some orig ∧
      nameBlank orig = true ∧
      (some (⟨some "v1.0.0", some "v1.0.0", some "2025-01-01T00:00:00Z"⟩ : Release) =
        some (patchName orig)) ∧
      ([⟨some "v1.0.0", some "v1.0.0", some "2025-01-01T00:00:00Z"⟩] : List Release) =
        ([⟨some "", some "v1.0.0", some "2025-01-01T00:00:00Z"⟩] : List Release).set i
          (patchName orig) := by
  have h := find_latest_mutation_bound "published" []
    [⟨some "", some "v1.0.0", some "2025-01-01T00:00:00Z"⟩]
    (some ⟨some "v1.0.0", some "v1.0.0", some "2025-01-01T00:00:00Z"⟩)
    [⟨some "v1.0.0", some "v1.0.0", some "2025-01-01T00:00:00Z"⟩] (by decide)
  rcases h with h | ⟨i, orig, h1, h2, h3, h4⟩
  · exact Or.inl h
  · exact Or.inr ⟨i, orig, h1, h2, h3, h4⟩

/-- C10: whenever the per-tag asset listing behind `get_checksum_asset`
yields a non-200 transport status (including the 419 internal-failure and 429
rate-limit sentinels), `get_checksum_asset` returns `None`: at this public
operation transport errors are swallowed into an absent result rather than
propagated. -/
theorem checksum_asset_transport_error :
    ∀ (system arch tag : String) (status : Nat) (assets : List Asset),
      status ≠ 200 → get_checksum_asset system arch tag (status, assets) = none := by
  intro system arch tag status assets h
  simp [get_checksum_asset, h]

theorem checksum_asset_transport_error_witness :
    get_checksum_asset "linux" "x86_64" "v1.2.3" (419, [⟨"SHA256SUMS", none, none⟩]) = none ∧
    get_checksum_asset "linux" "x86_64" "v1.2.3" (429, [⟨"SHA256SUMS", none, none⟩]) = none :=
  ⟨checksum_asset_transport_error "linux" "x86_64" "v1.2.3" 419 _ (by decide),
   checksum_asset_transport_error "linux" "x86_64" "v1.2.3" 429 _ (by decide)⟩
